import Mathlib

/-!
Verification of the mxflib index-table subsystem (`src/mxflib/index.cpp`,
`src/mxflib/essence.h`) and the MPEG-2 VES sub-parser position logic
(`src/unnamed/part_000`, i.e. `esp_mpeg2ves.cpp`) against its
natural-language specification.

The C++ code is shallowly embedded: machine integers become `Nat`/`Int`
(`Position`/`Int64` as `Int`, `UInt32`/`UInt64` as `Nat`), byte buffers
become `List Nat` holding values `< 256`, `std::map` becomes an
association list kept sorted by key, and mutation becomes explicit state
passing.  Every definition mirrors the corresponding source function
branch for branch.
-/

namespace MxfLib

/-! ## Byte-buffer primitives

The source reads and writes big-endian fields through `GetU64`, `GetI64`,
`GetU32`, `GetI8`, `PutU64`, `PutU32`, `PutI8` (declared in the endian
helpers of the library).  We model buffers as `List Nat` with one byte per
element. -/

/-- Big-endian read of `n` bytes starting at offset `off`. -/
def getBE (l : List Nat) (off n : Nat) : Nat :=
  (List.range n).foldl (fun acc i => acc * 256 + l.getD (off + i) 0) 0

/-- `GetU32`: big-endian 32-bit read. -/
def getU32 (l : List Nat) (off : Nat) : Nat := getBE l off 4

/-- `GetU64`: big-endian 64-bit read. -/
def getU64 (l : List Nat) (off : Nat) : Nat := getBE l off 8

/-- Reinterpret an unsigned 8-bit value as the signed `Int8` value. -/
def i8ofU8 (b : Nat) : Int :=
  if b % 256 < 128 then (b % 256 : Int) else (b % 256 : Int) - 256

/-- Reinterpret an unsigned 32-bit value as the signed `Int32` value. -/
def i32ofU32 (n : Nat) : Int :=
  if n % 2 ^ 32 < 2 ^ 31 then (n % 2 ^ 32 : Int) else (n % 2 ^ 32 : Int) - 2 ^ 32

/-- Reinterpret an unsigned 64-bit value as the signed `Int64` value. -/
def i64ofU64 (n : Nat) : Int :=
  if n % 2 ^ 64 < 2 ^ 63 then (n % 2 ^ 64 : Int) else (n % 2 ^ 64 : Int) - 2 ^ 64

/-- `GetI8`: read one byte as a signed value. -/
def getI8 (l : List Nat) (off : Nat) : Int := i8ofU8 (l.getD off 0)

/-- `GetI32`: big-endian signed 32-bit read. -/
def getI32 (l : List Nat) (off : Nat) : Int := i32ofU32 (getU32 l off)

/-- `GetI64`: big-endian signed 64-bit read. -/
def getI64 (l : List Nat) (off : Nat) : Int := i64ofU64 (getU64 l off)

/-- Big-endian write of value `v` as `n` bytes. -/
def putBE (v n : Nat) : List Nat :=
  (List.range n).map (fun i => v / 256 ^ (n - 1 - i) % 256)

/-- `PutU32`: big-endian 32-bit byte image. -/
def putU32 (v : Nat) : List Nat := putBE v 4

/-- `PutU64`: big-endian 64-bit byte image. -/
def putU64 (v : Nat) : List Nat := putBE v 8

/-- Convert a signed value to its unsigned 8-bit image (two's complement). -/
def u8ofI8 (v : Int) : Nat := (v % 256).toNat

/-- Overwrite bytes of `l` starting at `off` with the bytes of `v`
(the image of an in-place `memcpy`/`PutU64` on a buffer; bytes of `v`
falling beyond the end of `l` are dropped, which never happens at the
call sites because the writes are bounds-checked by entry counts). -/
def writeBytes (l : List Nat) (off : Nat) (v : List Nat) : List Nat :=
  l.take off ++ (v.take (l.length - off)) ++ l.drop (off + v.length)

/-! ## `SystemSource::CalcFillerSize` (`src/mxflib/essence.h:652`) -/

/-- The `while(Fill < Limit) Fill += KAGSize;` loop of `CalcFillerSize`.
The `K = 0` guard is never taken at the call site (the caller replaces a
zero KAG with 1) but keeps the recursion total. -/
def fillLoop (limit K Fill : Nat) : Nat :=
  if K = 0 then Fill
  else if Fill < limit then fillLoop limit K (Fill + K)
  else Fill
termination_by limit - Fill
decreasing_by omega

/-- `SystemSource::CalcFillerSize(FillPos, KAGSize, ForceBER4)`.
`FillPos` is a (non-negative) file position; the C++ `FillPos % KAGSize`
on a non-negative `Position` agrees with `Int.emod`. -/
def CalcFillerSize (FillPos : Int) (KAGSize : Nat) (ForceBER4 : Bool) : Nat :=
  let KAG := if KAGSize = 0 then 1 else KAGSize
  let Offset := (FillPos % (KAG : Int)).toNat
  if Offset = 0 then 0
  else
    let Fill := KAG - Offset
    let Fill := if ForceBER4 then fillLoop 20 KAG Fill else fillLoop 17 KAG Fill
    if Fill > 0x00ffffff then 0x00ffffff else Fill

/-! ## `MPEG2_VES_EssenceSubParser::GetCurrentPosition`
(`src/unnamed/part_000:260`) -/

/-- A `Rational` as used for edit rates. -/
structure MRational where
  Numerator : Int
  Denominator : Int
deriving DecidableEq, Repr

/-- The state of `MPEG2_VES_EssenceSubParser` relevant to
`GetCurrentPosition`. -/
structure MPEG2State where
  SelectedEditRate : MRational
  NativeEditRate : MRational
  PictureNumber : Int
deriving Repr

/-- The C++ guard sub-expression `(NativeEditRate.Denominator || 0)`:
a logical OR of an integer and the constant zero. -/
def denomOrZero (d : Int) : Bool := (d ≠ 0) || (0 ≠ (0 : Int))

/-- `MPEG2_VES_EssenceSubParser::GetCurrentPosition()`.  The final branch
divides `double`s; we model that arithmetic over `ℚ` (it is unreachable
whenever the native edit rate has a non-zero denominator, which is the
case for every rate the parser assigns). -/
def GetCurrentPosition (s : MPEG2State) : Int :=
  if s.SelectedEditRate.Numerator = s.NativeEditRate.Numerator ∧
     s.SelectedEditRate.Denominator = s.NativeEditRate.Denominator then
    s.PictureNumber
  else if s.SelectedEditRate.Denominator = 0 ∨
          denomOrZero s.NativeEditRate.Denominator then
    0
  else
    let Pos : ℚ := (s.PictureNumber * s.SelectedEditRate.Numerator *
        s.NativeEditRate.Denominator : Int) /
      ((s.SelectedEditRate.Denominator * s.NativeEditRate.Numerator : Int) : ℚ)
    ⌊Pos + 1 / 2⌋

/-! ## Index table data model (`src/mxflib/index.cpp`)

`IndexTable` keeps a `std::map<Position, IndexSegmentPtr>` whose key is
always the segment's `StartPosition` (see `IndexTable::AddSegment` and
`IndexSegment::AddIndexSegmentToIndexTable`).  We model it as a list of
segments sorted by `StartPosition`; `DeltaCount` is the length of
`DeltaArray`. -/

/-- A `DeltaEntry` (`PosTableIndex` is an `Int8`, `Slice` a `UInt8`,
`ElementDelta` a big-endian `UInt32`, read back through `GetU32`). -/
structure DeltaEntry where
  PosTableIndex : Int
  Slice : Nat
  ElementDelta : Nat
deriving DecidableEq, Repr

/-- An `IndexSegment`: start position, entry count and the raw
`IndexEntryArray` byte buffer, plus the per-segment delta array. -/
structure IndexSegment where
  StartPosition : Int
  EntryCount : Nat
  DeltaArray : List DeltaEntry
  IndexEntryArray : List Nat
deriving DecidableEq, Repr

/-- An `IndexTable`: CBR byte count, base delta array, slice/pos-table
counts, entry size and the segment map. -/
structure IndexTable where
  EditUnitByteCount : Nat
  BaseDeltaArray : List DeltaEntry
  NSL : Nat
  NPE : Nat
  IndexEntrySize : Nat
  SegmentMap : List IndexSegment
deriving DecidableEq, Repr

/-- An `IndexPos` lookup result. -/
structure IndexPos where
  ThisPos : Int
  Location : Int
  Exact : Bool
  OtherPos : Bool
  Offset : Bool
  KeyFrameOffset : Int
  TemporalOffset : Int
  KeyLocation : Int
  Flags : Nat
  PosOffsetNumerator : Int
  PosOffsetDenominator : Int
deriving DecidableEq, Repr

/-- The all-zero `IndexPos` returned for positions before the table start
or for empty segments. -/
def zeroPos : IndexPos :=
  { ThisPos := 0, Location := 0, Exact := false, Offset := false,
    OtherPos := false, KeyFrameOffset := 0, TemporalOffset := 0,
    KeyLocation := 0, Flags := 0,
    PosOffsetNumerator := 0, PosOffsetDenominator := 0 }

/-- The segment-map search shared by `Lookup`, `Correct` and `Update`:
`find` the exact key, else `lower_bound` and step back.  On a map sorted
by `StartPosition` this returns the segment with the greatest
`StartPosition ≤ EditUnit`, or `none` when the position is before the
start (or the map is empty). -/
def findLE (m : List IndexSegment) (EditUnit : Int) : Option IndexSegment :=
  m.foldl (fun acc s => if s.StartPosition ≤ EditUnit then some s else acc) none

/-- `Segment->DeltaCount == 0 || (SubItem < Segment->DeltaCount) &&
(Segment->DeltaArray[SubItem].PosTableIndex < 0)` — the sub-item is
subject to temporal re-ordering (`index.cpp:273` and `:284`). -/
def reorderApplies (Segment : IndexSegment) (SubItem : Nat) : Prop :=
  Segment.DeltaArray.length = 0 ∨
    (SubItem < Segment.DeltaArray.length ∧
      (Segment.DeltaArray.getD SubItem ⟨0, 0, 0⟩).PosTableIndex < 0)

instance (Segment : IndexSegment) (SubItem : Nat) :
    Decidable (reorderApplies Segment SubItem) := by
  unfold reorderApplies; infer_instance

/-- `IndexTable::Lookup(EditUnit, SubItem, Reorder)` (`index.cpp:134`).
The single recursive call passes `Reorder = false`. -/
def IndexTable.Lookup (tbl : IndexTable) (EditUnit : Int) (SubItem : Nat)
    (Reorder : Bool) : IndexPos :=
  -- Deal with CBR first
  if tbl.EditUnitByteCount ≠ 0 then
    let Loc : Int := EditUnit * (tbl.EditUnitByteCount : Int)
    let (Exact, Loc) :=
      if SubItem = 0 then (true, Loc)
      else if SubItem ≥ tbl.BaseDeltaArray.length then (false, Loc)
      else if (tbl.BaseDeltaArray.getD SubItem ⟨0, 0, 0⟩).Slice ≠ 0 then
        (false, Loc)
      else
        (true, Loc + ((tbl.BaseDeltaArray.getD SubItem ⟨0, 0, 0⟩).ElementDelta : Int))
    { zeroPos with ThisPos := EditUnit, Location := Loc, Exact := Exact,
                   KeyLocation := Loc }
  else
    match findLE tbl.SegmentMap EditUnit with
    -- Before the start of the index table: return the start of the essence
    | none => zeroPos
    | some Segment =>
      -- A segment with no entries (shouldn't happen)
      if Segment.EntryCount = 0 then zeroPos
      -- The nearest (or lower) index point is before this edit unit
      else if Segment.StartPosition + (Segment.EntryCount : Int) - 1 < EditUnit then
        let Loc := i64ofU64 (getU64 Segment.IndexEntryArray
          ((Segment.EntryCount - 1) * tbl.IndexEntrySize + 3))
        { zeroPos with
            ThisPos := Segment.StartPosition + (Segment.EntryCount : Int) - 1,
            Location := Loc, OtherPos := true, KeyLocation := Loc }
      else
        -- Index the start of the correct index entry
        let Base := (EditUnit - Segment.StartPosition).toNat * tbl.IndexEntrySize
        let TemporalOffset := getI8 Segment.IndexEntryArray Base
        if h : Reorder = true ∧ TemporalOffset ≠ 0 ∧ reorderApplies Segment SubItem then
          { tbl.Lookup (EditUnit + TemporalOffset) SubItem false with
              TemporalOffset := TemporalOffset }
        else
          let KeyFrameOffset := getI8 Segment.IndexEntryArray (Base + 1)
          let Flags := Segment.IndexEntryArray.getD (Base + 2) 0
          let KeyLocation :=
            if Flags % 8 ≥ 4 ∨ -KeyFrameOffset > EditUnit - Segment.StartPosition then
              (-1 : Int)
            else
              getI64 Segment.IndexEntryArray
                ((EditUnit - Segment.StartPosition - (-KeyFrameOffset)).toNat *
                  tbl.IndexEntrySize + 3)
          let Location := i64ofU64 (getU64 Segment.IndexEntryArray (Base + 3))
          let Ret : IndexPos :=
            { zeroPos with
                ThisPos := EditUnit,
                TemporalOffset :=
                  if reorderApplies Segment SubItem then TemporalOffset else 0,
                KeyFrameOffset := KeyFrameOffset, Flags := Flags,
                KeyLocation := KeyLocation, Location := Location }
          -- No details of the exact sub-item: return the edit-unit start
          if SubItem ≥ Segment.DeltaArray.length then Ret
          else
            let Slice := (Segment.DeltaArray.getD SubItem ⟨0, 0, 0⟩).Slice
            let Location :=
              if SubItem > 0 then
                (if Slice ≠ 0 then
                  Location + (getU32 Segment.IndexEntryArray
                    (Base + 11 + (Slice - 1) * 4) : Int)
                 else Location) +
                ((Segment.DeltaArray.getD SubItem ⟨0, 0, 0⟩).ElementDelta : Int)
              else Location
            let PosTableIndex :=
              if Segment.DeltaArray.length > 0 then
                (Segment.DeltaArray.getD SubItem ⟨0, 0, 0⟩).PosTableIndex
              else 0
            if PosTableIndex > 0 then
              let PosOff := Base + 11 + tbl.NSL * 4 + ((PosTableIndex - 1).toNat * 8)
              { Ret with
                  Exact := true, Location := Location, Offset := true,
                  PosOffsetNumerator := getI32 Segment.IndexEntryArray PosOff,
                  PosOffsetDenominator := getI32 Segment.IndexEntryArray (PosOff + 4) }
            else
              { Ret with Exact := true, Location := Location, Offset := false }
termination_by (if Reorder then 1 else 0)
decreasing_by simp [h.1]

/-! ## Segment creation: `IndexTable::AddSegment` / `GetSegment` -/

/-- `std::map` insertion keyed by `StartPosition` (only ever called when
the key is absent). -/
def insertSeg (m : List IndexSegment) (s : IndexSegment) : List IndexSegment :=
  match m with
  | [] => [s]
  | a :: rest =>
    if s.StartPosition < a.StartPosition then s :: a :: rest
    else a :: insertSeg rest s

/-- `IndexSegment::AddIndexSegmentToIndexTable` (`index.cpp:1008`): a new
empty segment with the table's base delta array copied in. -/
def mkSegment (tbl : IndexTable) (IndexStartPosition : Int) : IndexSegment :=
  { StartPosition := IndexStartPosition, EntryCount := 0,
    DeltaArray := tbl.BaseDeltaArray, IndexEntryArray := [] }

/-- `IndexTable::AddSegment(Int64 StartPosition)` (`index.cpp:877`):
return the existing segment for this start position, else create, insert
and return a new empty one. -/
def IndexTable.AddSegment (tbl : IndexTable) (StartPosition : Int) :
    IndexTable × IndexSegment :=
  match tbl.SegmentMap.find? (fun s => s.StartPosition = StartPosition) with
  | some s => (tbl, s)
  | none =>
    let Segment := mkSegment tbl StartPosition
    ({ tbl with SegmentMap := insertSeg tbl.SegmentMap Segment }, Segment)

/-- `IndexTable::GetSegment(Position EditUnit)` (`index.cpp:68`). -/
def IndexTable.GetSegment (tbl : IndexTable) (EditUnit : Int) :
    IndexTable × IndexSegment :=
  match findLE tbl.SegmentMap EditUnit with
  | none => tbl.AddSegment EditUnit
  | some seg =>
    -- `(*it).first > EditUnit` is impossible after `findLE`, kept for fidelity
    if seg.StartPosition > EditUnit then tbl.AddSegment EditUnit
    -- Beyond the current free slot at the end of the segment
    else if EditUnit > seg.StartPosition + (seg.EntryCount : Int) then
      tbl.AddSegment EditUnit
    else (tbl, seg)

/-! ## `IndexSegment::AddIndexEntry` (`index.cpp:893`) -/

/-- `PutI32` of a signed value (two's-complement byte image). -/
def putI32 (v : Int) : List Nat := putBE (v % 2 ^ 32).toNat 4

/-- The byte image of one index entry as built in
`IndexSegment::AddIndexEntry`.  DRAGONS: the source writes
`PutI32(Numerator, Ptr); PutI32(Denominator, Ptr);` without advancing
`Ptr` in between, so the first four PosTable bytes hold the denominator
and the last four are uninitialised buffer memory (modelled as zero). -/
def entryBytes (TemporalOffset KeyFrameOffset : Int) (Flags StreamOffset : Nat)
    (SliceOffsets : List Nat) (PosTable : List (Int × Int)) : List Nat :=
  [u8ofI8 TemporalOffset, u8ofI8 KeyFrameOffset, Flags % 256] ++
    putU64 StreamOffset ++
    (SliceOffsets.map putU32).flatten ++
    (PosTable.map (fun p => putI32 p.2 ++ [0, 0, 0, 0])).flatten

/-- `IndexSegment::AddIndexEntry` — `Parent` supplies `NSL`, `NPE` and
`IndexEntrySize`; the slice-offset and PosTable arrays carry their counts
as their lengths.  Returns the updated segment and the success flag.
Like the source (which appends exactly `Parent->IndexEntrySize` bytes),
the appended chunk is padded/clipped to `IndexEntrySize` (a no-op under
the invariant `IndexEntrySize = 11 + 4·NSL + 8·NPE`). -/
def IndexSegment.AddIndexEntry (Parent : IndexTable) (seg : IndexSegment)
    (TemporalOffset KeyFrameOffset : Int) (Flags : Nat) (StreamOffset : Nat)
    (SliceOffsets : List Nat) (PosTable : List (Int × Int)) :
    IndexSegment × Bool :=
  if SliceOffsets.length ≠ Parent.NSL then (seg, false)
  else if PosTable.length ≠ Parent.NPE then (seg, false)
  else
    -- Too big for a 2-byte local set length?
    let NewSize := (seg.EntryCount + 1) * Parent.IndexEntrySize + 8
    if NewSize > 0xffff then (seg, false)
    else
      let Buffer := entryBytes TemporalOffset KeyFrameOffset Flags StreamOffset
        SliceOffsets PosTable
      let Entry := Buffer.take Parent.IndexEntrySize ++
        List.replicate (Parent.IndexEntrySize - Buffer.length) 0
      ({ seg with IndexEntryArray := seg.IndexEntryArray ++ Entry,
                  EntryCount := seg.EntryCount + 1 }, true)

/-! ## `IndexTable::Update` / `IndexSegment::Update` (`index.cpp:1262`) -/

/-- `IndexSegment::Update(EditUnit, StreamOffset)` (`index.cpp:1290`):
overwrite the 8 stream-offset bytes of the entry for `EditUnit`.
`ES` is `Parent->IndexEntrySize`. -/
def IndexSegment.Update (ES : Nat) (seg : IndexSegment) (EditUnit : Int)
    (StreamOffset : Nat) : IndexSegment :=
  if EditUnit < seg.StartPosition then seg
  else if EditUnit > seg.StartPosition + (seg.EntryCount : Int) - 1 then seg
  else
    { seg with IndexEntryArray := (writeBytes seg.IndexEntryArray
        ((EditUnit - seg.StartPosition).toNat * ES + 3) (putU64 StreamOffset)) }

/-- `IndexTable::Update(EditUnit, StreamOffset)` (`index.cpp:1262`): find
the segment (greatest start ≤ `EditUnit`) and update it in place; the
replacement by matching `StartPosition` mirrors the in-place mutation on
a map with unique keys. -/
def IndexTable.Update (tbl : IndexTable) (EditUnit : Int) (StreamOffset : Nat) :
    IndexTable :=
  match findLE tbl.SegmentMap EditUnit with
  | none => tbl
  | some seg =>
    -- `(*it).first > EditUnit` is impossible after `findLE`, kept for fidelity
    if seg.StartPosition > EditUnit then tbl
    else
      { tbl with SegmentMap := tbl.SegmentMap.map (fun s =>
          if s.StartPosition = seg.StartPosition then
            s.Update tbl.IndexEntrySize EditUnit StreamOffset
          else s) }

/-! ## `IndexManager` (`src/mxflib/index.cpp:1513` onwards)

`ManagedData`, `UnsatisfiedTemporalOffsets` and `UnsatisfiedTemporalDiffs`
are `std::map`s keyed by `Position`; we model them as association lists
sorted by key.  `std::map::insert` does **not** overwrite an existing
key, which `mapInsert` reproduces.  Log-related members (`EntryLog`,
`NextLogID`, `LogWrapped`, `LogNextEntry`), `PreCharge`, SIDs and the
edit rate play no part in any claim and are left out of the state. -/

/-- `std::map::find` on an association list. -/
def mapFind : List (Int × α) → Int → Option α
  | [], _ => none
  | p :: rest, k => if p.1 = k then some p.2 else mapFind rest k

/-- `std::map::insert` on an association list sorted by key: inserts in
order, and is a no-op when the key is already present. -/
def mapInsert (m : List (Int × α)) (k : Int) (v : α) : List (Int × α) :=
  match m with
  | [] => [(k, v)]
  | p :: rest =>
    if k < p.1 then (k, v) :: p :: rest
    else if k = p.1 then p :: rest
    else p :: mapInsert rest k v

/-- `std::map::erase` of one key. -/
def mapErase : List (Int × α) → Int → List (Int × α)
  | [], _ => []
  | p :: rest, k => if p.1 = k then mapErase rest k else p :: mapErase rest k

/-- Mutation of the mapped value through a found iterator. -/
def mapUpdate : List (Int × α) → Int → (α → α) → List (Int × α)
  | [], _, _ => []
  | p :: rest, k, f => (if p.1 = k then (p.1, f p.2) else p) :: mapUpdate rest k f

/-- One managed index entry (`struct IndexData`, declared in the missing
`index.h`; field semantics follow its uses in `index.cpp`).
`StreamOffset` is the per-sub-stream offset array sized by the stream
count at entry creation. -/
structure IndexData where
  Status : Nat
  Flags : Int
  KeyOffset : Int
  TemporalOffset : Int
  TemporalDiff : Int
  StreamOffset : List Nat
deriving DecidableEq, Repr

/-- The `IndexManager` state. -/
structure IndexManager where
  FormatFixed : Bool
  UsesReordering : Bool
  DataIsCBR : Bool
  StreamCount : Nat
  PosTableList : List Int
  ElementSizeList : List Nat
  MasterStream : Nat
  SubRangeOffset : Int
  ManagedData : List (Int × IndexData)
  UnsatisfiedTemporalOffsets : List (Int × Int)
  UnsatisfiedTemporalDiffs : List (Int × Int)
  ProvisionalEntry : Option IndexData
  ProvisionalEditUnit : Int
  LastNewEditUnit : Int
deriving DecidableEq, Repr

/-- `IndexManager::AddSubStream(PosTableIndex, ElementSize)`
(`index.cpp:1576`): fails (returns 0, no state change) once the format is
fixed; otherwise appends to the stream lists and returns the previous
stream count as the new ID.  The `StreamListSize` array-capacity growth
is memory management with no observable effect and is not modelled. -/
def IndexManager.AddSubStream (m : IndexManager) (PosTableIndex : Int)
    (ElementSize : Nat) : IndexManager × Nat :=
  if m.FormatFixed then (m, 0)
  else
    ({ m with
        UsesReordering := if PosTableIndex < 0 then true else m.UsesReordering,
        DataIsCBR := if ElementSize = 0 then false else m.DataIsCBR,
        PosTableList := m.PosTableList ++ [PosTableIndex],
        ElementSizeList := m.ElementSizeList ++ [ElementSize],
        StreamCount := m.StreamCount + 1 },
      m.StreamCount)

/-- `IndexManager::MakeIndex` (`index.cpp:2015`), manager side: the
format becomes (very definitely) fixed.  The returned `IndexTable` is
assembled from `StreamCount`/`ElementSizeList` without modifying the
manager further and is not needed by any claim, so only the state
transition is embedded. -/
def IndexManager.MakeIndex (m : IndexManager) : IndexManager :=
  { m with FormatFixed := true }

/-- A freshly created, zero-filled managed entry
(`memset(ThisEntry, 0, ManagedDataEntrySize)`). -/
def freshEntry (StreamCount : Nat) : IndexData :=
  { Status := 0, Flags := 0, KeyOffset := 0, TemporalOffset := 0,
    TemporalDiff := 0, StreamOffset := List.replicate StreamCount 0 }

/-- The entry-location/creation step shared by `AddEditUnit` and
`SetOffset` (`index.cpp:1643`–`1699` and `1733`–`1789`): dump or re-use
the provisional entry, then find or create the entry for `EditUnit`,
resolving any parked temporal offset/diff on creation.  The returned flag
tells whether subsequent writes through `ThisEntry` reach the map entry
at `EditUnit` (they do not in the degenerate case where the provisional
entry is re-used but `std::map::insert` finds the key already present,
leaving `ThisEntry` pointing at an orphaned allocation). -/
def locateEntry (m : IndexManager) (EditUnit : Int) : IndexManager × Bool :=
  match m.ProvisionalEntry with
  | some pe =>
    if m.ProvisionalEditUnit = EditUnit then
      ({ m with ManagedData := mapInsert m.ManagedData EditUnit pe,
                LastNewEditUnit := EditUnit, ProvisionalEntry := none },
        mapFind m.ManagedData EditUnit = none)
    else
      findOrCreateEntry { m with ProvisionalEntry := none } EditUnit
  | none => findOrCreateEntry m EditUnit
where
  /-- The find-or-create part (`index.cpp:1663`–`1699`). -/
  findOrCreateEntry (m : IndexManager) (EditUnit : Int) : IndexManager × Bool :=
    match mapFind m.ManagedData EditUnit with
    | some _ => (m, true)
    | none =>
      let e0 := freshEntry m.StreamCount
      let (e1, uto) :=
        match mapFind m.UnsatisfiedTemporalOffsets EditUnit with
        | some off => ({ e0 with TemporalOffset := off },
            mapErase m.UnsatisfiedTemporalOffsets EditUnit)
        | none => (e0, m.UnsatisfiedTemporalOffsets)
      let (e2, utd) :=
        match mapFind m.UnsatisfiedTemporalDiffs EditUnit with
        | some diff => ({ e1 with TemporalDiff := diff },
            mapErase m.UnsatisfiedTemporalDiffs EditUnit)
        | none => (e1, m.UnsatisfiedTemporalDiffs)
      ({ m with ManagedData := mapInsert m.ManagedData EditUnit e2,
                UnsatisfiedTemporalOffsets := uto,
                UnsatisfiedTemporalDiffs := utd,
                LastNewEditUnit := EditUnit }, true)

/-- `IndexManager::AddEditUnit(SubStream, EditUnit, KeyOffset, Flags)`
(`index.cpp:1629`): corrects for the sub-range offset, fixes the format,
locates/creates the entry and lets the master stream set per-entry
values. -/
def IndexManager.AddEditUnit (m : IndexManager) (SubStream : Nat)
    (EditUnit : Int) (KeyOffset : Int) (Flags : Int) : IndexManager :=
  if m.DataIsCBR then m
  else
    -- Correct for sub-range offset
    let EditUnit := EditUnit - m.SubRangeOffset
    let m := { m with FormatFixed := true }
    let (m, reach) := locateEntry m EditUnit
    if reach ∧ SubStream = m.MasterStream then
      { m with ManagedData := mapUpdate m.ManagedData EditUnit (fun e =>
          { e with
              KeyOffset := if KeyOffset ≠ 0 then KeyOffset else e.KeyOffset,
              Flags := if Flags ≠ -1 then Flags else e.Flags }) }
    else m

/-- `IndexManager::SetOffset(SubStream, EditUnit, Offset, KeyOffset,
Flags)` (`index.cpp:1722`).  DRAGONS (from the source): the edit unit
supplied here is already relative to the sub-range — no `SubRangeOffset`
correction is applied. -/
def IndexManager.SetOffset (m : IndexManager) (SubStream : Nat)
    (EditUnit : Int) (Offset : Nat) (KeyOffset : Int) (Flags : Int) :
    IndexManager :=
  if m.DataIsCBR then m
  else
    let m := { m with FormatFixed := true }
    let (m, reach) := locateEntry m EditUnit
    if reach then
      { m with ManagedData := mapUpdate m.ManagedData EditUnit (fun e =>
          let e := { e with Status := e.Status ||| 0x01,
                            StreamOffset := e.StreamOffset.set SubStream Offset }
          if SubStream = m.MasterStream then
            { e with
                KeyOffset := if KeyOffset ≠ 0 then KeyOffset else e.KeyOffset,
                Flags := if Flags ≠ -1 then Flags else e.Flags }
          else e) }
    else m

/-- `IndexManager::OfferEditUnit` (`index.cpp:1808`): all offers are
accepted. -/
def IndexManager.OfferEditUnit (m : IndexManager) (SubStream : Nat)
    (EditUnit : Int) (KeyOffset : Int) (Flags : Int) : IndexManager × Bool :=
  (m.AddEditUnit SubStream EditUnit KeyOffset Flags, true)

/-- `IndexManager::OfferOffset` (`index.cpp:1822`): all offers are
accepted. -/
def IndexManager.OfferOffset (m : IndexManager) (SubStream : Nat)
    (EditUnit : Int) (Offset : Nat) (KeyOffset : Int) (Flags : Int) :
    IndexManager × Bool :=
  (m.SetOffset SubStream EditUnit Offset KeyOffset Flags, true)

/-- `IndexManager::SetTemporalOffset(EditUnit, Offset)`
(`index.cpp:1834`): record the offset on the entry (or the provisional
entry, or park it), then record the reverse offset (`TemporalDiff`) on
the entry at `EditUnit + Offset` (or park it — keyed, like the forward
offset, under the sub-range-corrected `EditUnit`). -/
def IndexManager.SetTemporalOffset (m : IndexManager) (EditUnit : Int)
    (Offset : Int) : IndexManager :=
  if m.DataIsCBR then m
  else
    -- Correct for sub-range offset
    let EditUnit := EditUnit - m.SubRangeOffset
    let m :=
      if m.ProvisionalEntry.isSome && decide (EditUnit = m.ProvisionalEditUnit) then
        { m with ProvisionalEntry := m.ProvisionalEntry.map (fun e =>
            { e with Status := e.Status ||| 0x02, TemporalOffset := Offset }) }
      else
        match mapFind m.ManagedData EditUnit with
        | some _ =>
          { m with ManagedData := mapUpdate m.ManagedData EditUnit (fun e =>
              { e with Status := e.Status ||| 0x02, TemporalOffset := Offset }) }
        | none =>
          { m with UnsatisfiedTemporalOffsets :=
              mapInsert m.UnsatisfiedTemporalOffsets EditUnit Offset }
    -- Now set the reverse offset (TemporalDiff)
    if m.ProvisionalEntry.isSome && decide (EditUnit + Offset = m.ProvisionalEditUnit) then
      { m with ProvisionalEntry := m.ProvisionalEntry.map (fun e =>
          { e with Status := e.Status ||| 0x04, TemporalDiff := -Offset }) }
    else
      match mapFind m.ManagedData (EditUnit + Offset) with
      | some _ =>
        { m with ManagedData := mapUpdate m.ManagedData (EditUnit + Offset) (fun e =>
            { e with Status := e.Status ||| 0x04, TemporalDiff := -Offset }) }
      | none =>
        { m with UnsatisfiedTemporalDiffs :=
            mapInsert m.UnsatisfiedTemporalDiffs EditUnit (-Offset) }

/-- `IndexManager::SetKeyOffset(EditUnit, Offset)` (`index.cpp:1908`). -/
def IndexManager.SetKeyOffset (m : IndexManager) (EditUnit : Int)
    (Offset : Int) : IndexManager :=
  if m.DataIsCBR then m
  else
    let EditUnit := EditUnit - m.SubRangeOffset
    if m.ProvisionalEntry.isSome && decide (EditUnit = m.ProvisionalEditUnit) then
      { m with ProvisionalEntry :=
          m.ProvisionalEntry.map (fun e => { e with KeyOffset := Offset }) }
    else
      match mapFind m.ManagedData EditUnit with
      | some _ =>
        { m with ManagedData := mapUpdate m.ManagedData EditUnit (fun e =>
            { e with KeyOffset := Offset }) }
      | none => m   -- error("... unknown edit unit ...")

/-- `IndexManager::SetFlags(EditUnit, Flags)` (`index.cpp:1953`). -/
def IndexManager.SetFlags (m : IndexManager) (EditUnit : Int)
    (Flags : Int) : IndexManager :=
  if m.DataIsCBR then m
  else
    let EditUnit := EditUnit - m.SubRangeOffset
    if m.ProvisionalEntry.isSome && decide (EditUnit = m.ProvisionalEditUnit) then
      { m with ProvisionalEntry :=
          m.ProvisionalEntry.map (fun e => { e with Flags := Flags }) }
    else
      match mapFind m.ManagedData EditUnit with
      | some _ =>
        { m with ManagedData := mapUpdate m.ManagedData EditUnit (fun e =>
            { e with Flags := Flags }) }
      | none => m   -- error("... unknown edit unit ...")

/-! ## Concrete instances used to exercise the theorems -/

/-- A CBR index table: 1000 bytes per edit unit, two sub-items with the
second 40 bytes into the edit unit. -/
def cbrTable : IndexTable :=
  { EditUnitByteCount := 1000,
    BaseDeltaArray := [⟨0, 0, 0⟩, ⟨0, 0, 40⟩],
    NSL := 0, NPE := 0, IndexEntrySize := 11, SegmentMap := [] }

/-- A 3-entry VBR segment starting at edit unit 0: entry 0 carries
temporal offset +2, entries at offsets 100/200/300. -/
def vbrSegment : IndexSegment :=
  { StartPosition := 0, EntryCount := 3, DeltaArray := [],
    IndexEntryArray :=
      [2, 0, 0, 0, 0, 0, 0, 0, 0, 0, 100,
       0, 0, 0, 0, 0, 0, 0, 0, 0, 0, 200,
       0, 0, 0, 0, 0, 0, 0, 0, 0, 0, 44] }

/-- A VBR index table holding `vbrSegment`. -/
def vbrTable : IndexTable :=
  { EditUnitByteCount := 0, BaseDeltaArray := [],
    NSL := 0, NPE := 0, IndexEntrySize := 11, SegmentMap := [vbrSegment] }

/-- A parent table for a segment with two slices: entries are
`11 + 4·2 = 19` bytes. -/
def sliceTable : IndexTable :=
  { EditUnitByteCount := 0, BaseDeltaArray := [],
    NSL := 2, NPE := 0, IndexEntrySize := 19, SegmentMap := [] }

/-- A segment whose entry array holds 3448 19-byte entries (65512 bytes):
appending one more entry would grow it to 65531 bytes — still within
65535, yet `AddIndexEntry` refuses because its size check adds the
8-byte array header. -/
def fullSegment : IndexSegment :=
  { StartPosition := 0, EntryCount := 3448, DeltaArray := [],
    IndexEntryArray := List.replicate 65512 0 }

/-- An index manager for one VBR stream read through a sub-range starting
5 edit units in, with one managed entry at (sub-range-relative) position
2. -/
def rangedManager : IndexManager :=
  { FormatFixed := false, UsesReordering := true, DataIsCBR := false,
    StreamCount := 1, PosTableList := [-1], ElementSizeList := [0],
    MasterStream := 0, SubRangeOffset := 5,
    ManagedData := [(2, freshEntry 1)],
    UnsatisfiedTemporalOffsets := [], UnsatisfiedTemporalDiffs := [],
    ProvisionalEntry := none, ProvisionalEditUnit := 0,
    LastNewEditUnit := 2 }

/-- A manager with no managed entries yet (used for the
unsatisfied-temporal-offset scenario). -/
def emptyManager : IndexManager :=
  { rangedManager with SubRangeOffset := 0, ManagedData := [],
                       LastNewEditUnit := -(2 ^ 63 - 1) }

/-! ## Association-map lemmas -/

theorem mapFind_mapInsert_self (m : List (Int × α)) (k : Int) (v : α)
    (h : mapFind m k = none) : mapFind (mapInsert m k v) k = some v := by
  induction m with
  | nil => simp [mapFind, mapInsert]
  | cons p rest ih =>
    simp only [mapInsert]
    rcases lt_trichotomy k p.1 with hlt | heq | hgt
    · rw [if_pos hlt]; simp [mapFind]
    · simp [mapFind, heq.symm] at h
    · rw [if_neg (by omega), if_neg (by omega)]
      simp only [mapFind, if_neg (show ¬ p.1 = k by omega)] at h ⊢
      exact ih h

theorem mapFind_mapInsert_ne (m : List (Int × α)) (k k' : Int) (v : α)
    (h : k' ≠ k) : mapFind (mapInsert m k v) k' = mapFind m k' := by
  induction m with
  | nil => simp [mapFind, mapInsert, show ¬ k = k' by omega]
  | cons p rest ih =>
    simp only [mapInsert]
    rcases lt_trichotomy k p.1 with hlt | heq | hgt
    · rw [if_pos hlt]; simp [mapFind, show ¬ k = k' by omega]
    · rw [if_neg (by omega), if_pos heq]
    · rw [if_neg (by omega), if_neg (by omega)]
      simp only [mapFind]
      by_cases hp : p.1 = k'
      · simp [hp]
      · simp only [if_neg hp]; exact ih

theorem mapFind_mapUpdate_self (m : List (Int × α)) (k : Int) (f : α → α) :
    mapFind (mapUpdate m k f) k = (mapFind m k).map f := by
  induction m with
  | nil => simp [mapFind, mapUpdate]
  | cons p rest ih =>
    by_cases hp : p.1 = k
    · simp [mapFind, mapUpdate, hp]
    · simp only [mapFind, mapUpdate, if_neg hp]
      exact ih

theorem mapFind_mapUpdate_ne (m : List (Int × α)) (k k' : Int) (f : α → α)
    (h : k' ≠ k) : mapFind (mapUpdate m k f) k' = mapFind m k' := by
  induction m with
  | nil => simp [mapFind, mapUpdate]
  | cons p rest ih =>
    by_cases hp : p.1 = k
    · simp only [mapFind, mapUpdate, if_pos hp]
      rw [if_neg (by omega), if_neg (by omega)]
      exact ih
    · simp only [mapFind, mapUpdate, if_neg hp]
      by_cases hk : p.1 = k'
      · simp [hk]
      · simp only [if_neg hk]; exact ih

theorem mapFind_mapErase_self (m : List (Int × α)) (k : Int) :
    mapFind (mapErase m k) k = none := by
  induction m with
  | nil => simp [mapFind, mapErase]
  | cons p rest ih =>
    by_cases hp : p.1 = k
    · simpa [mapErase, hp] using ih
    · simp only [mapErase, if_neg hp, mapFind]
      simpa [if_neg hp] using ih

theorem mapFind_mapErase_ne (m : List (Int × α)) (k k' : Int) (h : k' ≠ k) :
    mapFind (mapErase m k) k' = mapFind m k' := by
  induction m with
  | nil => simp [mapFind, mapErase]
  | cons p rest ih =>
    by_cases hp : p.1 = k
    · simp only [mapErase, if_pos hp, mapFind]
      rw [if_neg (by omega)]
      exact ih
    · simp only [mapErase, if_neg hp, mapFind]
      by_cases hk : p.1 = k'
      · simp [hk]
      · simp only [if_neg hk]; exact ih

/-! ## Filler-size lemmas and claim C3 -/

theorem fillLoop_ge (limit K Fill : Nat) (hK : K ≠ 0) :
    limit ≤ fillLoop limit K Fill := by
  induction Fill using fillLoop.induct limit K with
  | case1 x h => exact absurd h hK
  | case2 x h hlt ih => rw [fillLoop, if_neg h, if_pos hlt]; exact ih
  | case3 x h hlt => rw [fillLoop, if_neg h, if_neg hlt]; omega

theorem fillLoop_add_multiple (limit K Fill : Nat) :
    ∃ j, fillLoop limit K Fill = Fill + j * K := by
  induction Fill using fillLoop.induct limit K with
  | case1 x h => exact ⟨0, by rw [fillLoop, if_pos h]; simp⟩
  | case2 x h hlt ih =>
    obtain ⟨j, hj⟩ := ih
    exact ⟨j + 1, by rw [fillLoop, if_neg h, if_pos hlt, hj]; ring⟩
  | case3 x h hlt =>
    exact ⟨0, by rw [fillLoop, if_neg h, if_neg hlt]; simp⟩

/-- C3: for a position `P ≥ 0` and KAG size `K > 0`, `CalcFillerSize`
returns 0 when `P` is already aligned; otherwise, writing `F` for the
adjusted filler size computed by the alignment loop, the function returns
`F` whenever `F ≤ 0x00FFFFFF` — and then `(P + F) mod K = 0` and
`F ≥ 17` (`≥ 20` when `ForceBER4`) — and returns exactly `0x00FFFFFF`
(reporting an error) when `F` exceeds that bound. -/
theorem cbrFillerLaw (P : Int) (K : Nat) (F4 : Bool) (hP : 0 ≤ P) (hK : 0 < K) :
    (P % (K : Int) = 0 → CalcFillerSize P K F4 = 0) ∧
    (P % (K : Int) ≠ 0 →
      (fillLoop (if F4 then 20 else 17) K (K - (P % (K : Int)).toNat) ≤ 0x00ffffff →
        CalcFillerSize P K F4 =
          fillLoop (if F4 then 20 else 17) K (K - (P % (K : Int)).toNat) ∧
        (P + (CalcFillerSize P K F4 : Int)) % (K : Int) = 0 ∧
        (if F4 then 20 else 17) ≤ CalcFillerSize P K F4) ∧
      (0x00ffffff < fillLoop (if F4 then 20 else 17) K (K - (P % (K : Int)).toNat) →
        CalcFillerSize P K F4 = 0x00ffffff)) := by
  have hKz : ¬ (K = 0) := by omega
  have hmodlt : P % (K : Int) < (K : Int) :=
    Int.emod_lt_of_pos P (by exact_mod_cast hK)
  have hmodnn : 0 ≤ P % (K : Int) := Int.emod_nonneg P (by exact_mod_cast hKz)
  constructor
  · intro h0
    simp only [CalcFillerSize, if_neg hKz]
    rw [if_pos (by simp [h0])]
  · intro hne
    have hOffpos : 0 < (P % (K : Int)).toNat := by omega
    have hOfflt : (P % (K : Int)).toNat < K := by omega
    have hOffne : ¬ ((P % (K : Int)).toNat = 0) := by omega
    have hval : CalcFillerSize P K F4 =
        (if fillLoop (if F4 then 20 else 17) K (K - (P % (K : Int)).toNat) >
            0x00ffffff then 0x00ffffff
         else fillLoop (if F4 then 20 else 17) K (K - (P % (K : Int)).toNat)) := by
      cases F4 <;>
        simp only [CalcFillerSize, if_neg hKz, if_neg hOffne, Bool.false_eq_true,
          if_true, if_false]
    have halign : ∀ lim : Nat,
        (P + (fillLoop lim K (K - (P % (K : Int)).toNat) : Int)) % (K : Int) = 0 := by
      intro lim
      obtain ⟨j, hj⟩ := fillLoop_add_multiple lim K (K - (P % (K : Int)).toNat)
      rw [hj]
      have hPmod : P % (K : Int) = P - K * (P / K) := Int.emod_def P K
      have heq : (P + ((K - (P % (K : Int)).toNat + j * K : Nat) : Int)) =
          (K : Int) * (P / K + 1 + j) := by
        push_cast [Nat.cast_sub (le_of_lt hOfflt)]
        rw [Int.toNat_of_nonneg hmodnn, hPmod]
        ring
      rw [heq, Int.mul_emod_right]
    constructor
    · intro hsmall
      rw [hval, if_neg (by omega)]
      exact ⟨rfl, halign _, fillLoop_ge _ K _ hKz⟩
    · intro hbig
      rw [hval, if_pos (by omega)]

/-- Witness for C3 at `P = 1000`, `K = 512`, `ForceBER4 = true`
(scenario 4 of the spec: the filler is 24 bytes). -/
theorem cbrFillerLaw_witness :
    ((1000 : Int) % 512 ≠ 0) ∧
    CalcFillerSize 1000 512 true = 24 ∧
    ((1000 : Int) + (CalcFillerSize 1000 512 true : Int)) % 512 = 0 ∧
    20 ≤ CalcFillerSize 1000 512 true := by
  have hloop : fillLoop 20 512 24 = 24 := by rw [fillLoop]; norm_num
  have h := (cbrFillerLaw 1000 512 true (by norm_num) (by norm_num)).2 (by norm_num)
  norm_num at h
  have ht : (512 : Nat) - Int.toNat 488 = 24 := by decide
  rw [ht, hloop] at h
  have h2 := h.1 (by norm_num)
  exact ⟨by norm_num, h2.1, Int.emod_eq_zero_of_dvd h2.2.1, h2.2.2⟩

/-! ## Claim C7: `AddSubStream` after `MakeIndex` -/

/-- C7: once `MakeIndex` has fixed the format, `AddSubStream` returns 0
and leaves the manager (stream count, PosTable list, element-size list)
entirely unchanged. -/
theorem addSubStreamAfterMakeIndex (m : IndexManager) (pti : Int) (es : Nat) :
    (m.MakeIndex).AddSubStream pti es = (m.MakeIndex, 0) := by
  simp [IndexManager.MakeIndex, IndexManager.AddSubStream]

/-! ## Claim C9: the MPEG-2 current-position guard -/

/-- C9: the guard `(NativeEditRate.Denominator || 0)` evaluates truthy
for every denominator the parser assigns (they are all non-zero), so
whenever the selected edit rate differs from the native edit rate
`GetCurrentPosition` returns 0 instead of the rescaled position. -/
theorem mpeg2PositionGuard :
    (∀ d : Int, d ≠ 0 → denomOrZero d = true) ∧
    (∀ s : MPEG2State, s.NativeEditRate.Denominator ≠ 0 →
      ¬(s.SelectedEditRate.Numerator = s.NativeEditRate.Numerator ∧
        s.SelectedEditRate.Denominator = s.NativeEditRate.Denominator) →
      GetCurrentPosition s = 0) := by
  constructor
  · intro d hd; simp [denomOrZero, hd]
  · intro s hd hne
    rw [GetCurrentPosition, if_neg hne,
      if_pos (Or.inr (by simp [denomOrZero, hd]))]

/-- Witness for C9: native 25/1, selected 50/2, picture 10 — the
function returns 0. -/
theorem mpeg2PositionGuard_witness :
    ((⟨⟨50, 2⟩, ⟨25, 1⟩, 10⟩ : MPEG2State).NativeEditRate.Denominator ≠ 0) ∧
    ¬((50 : Int) = 25 ∧ (2 : Int) = 1) ∧
    GetCurrentPosition ⟨⟨50, 2⟩, ⟨25, 1⟩, 10⟩ = 0 :=
  ⟨by decide, by decide,
    mpeg2PositionGuard.2 ⟨⟨50, 2⟩, ⟨25, 1⟩, 10⟩ (by decide) (by decide)⟩

/-! ## `findLE` lemmas -/

theorem findLE_some_le (m : List IndexSegment) (E : Int) (seg : IndexSegment) :
    findLE m E = some seg → seg.StartPosition ≤ E := by
  suffices h : ∀ acc : Option IndexSegment,
      (∀ s, acc = some s → s.StartPosition ≤ E) →
      ∀ s, m.foldl (fun a x => if x.StartPosition ≤ E then some x else a) acc =
        some s → s.StartPosition ≤ E by
    intro hf
    exact h none (by simp) seg hf
  induction m with
  | nil => intro acc hacc s hs; exact hacc s hs
  | cons x rest ih =>
    intro acc hacc s hs
    simp only [List.foldl_cons] at hs
    refine ih _ ?_ s hs
    intro s' hs'
    by_cases hx : x.StartPosition ≤ E
    · rw [if_pos hx] at hs'; cases hs'; exact hx
    · rw [if_neg hx] at hs'; exact hacc s' hs'

theorem findLE_none_gt (m : List IndexSegment) (E : Int) :
    findLE m E = none → ∀ s ∈ m, ¬ s.StartPosition ≤ E := by
  suffices h : ∀ acc : Option IndexSegment,
      m.foldl (fun a x => if x.StartPosition ≤ E then some x else a) acc = none →
      acc = none ∧ ∀ s ∈ m, ¬ s.StartPosition ≤ E by
    intro hf
    exact (h none hf).2
  induction m with
  | nil => intro acc h; exact ⟨h, by simp⟩
  | cons x rest ih =>
    intro acc h
    simp only [List.foldl_cons] at h
    obtain ⟨hacc, hrest⟩ := ih _ h
    by_cases hx : x.StartPosition ≤ E
    · rw [if_pos hx] at hacc; cases hacc
    · rw [if_neg hx] at hacc
      exact ⟨hacc, by
        intro s hs
        rcases List.mem_cons.mp hs with rfl | hmem
        · exact hx
        · exact hrest s hmem⟩

/-- When no segment in the map starts at `E`, `AddSegment` inserts a new
empty segment starting there. -/
theorem addSegment_new (tbl : IndexTable) (E : Int)
    (h : ∀ s ∈ tbl.SegmentMap, s.StartPosition ≠ E) :
    tbl.AddSegment E =
      ({ tbl with SegmentMap := insertSeg tbl.SegmentMap (mkSegment tbl E) },
        mkSegment tbl E) := by
  have hfind : tbl.SegmentMap.find? (fun s => s.StartPosition = E) = none := by
    rw [List.find?_eq_none]
    intro s hs
    simp [h s hs]
  simp [IndexTable.AddSegment, hfind]

/-! ## Claim C8: `GetSegment` -/

/-- C8: `GetSegment(E)` returns the located (greatest-start `≤ E`)
segment when `E` lies inside it or is the first edit unit beyond its last
entry (`E ≤ StartPosition + EntryCount`), leaving the table unchanged;
otherwise — `E` before every segment, or beyond the free slot — it
creates a new empty segment starting at `E`, adds it and returns it. -/
theorem getSegmentLaw (tbl : IndexTable) (E : Int) :
    (∀ seg, findLE tbl.SegmentMap E = some seg →
      E ≤ seg.StartPosition + (seg.EntryCount : Int) →
      tbl.GetSegment E = (tbl, seg)) ∧
    (findLE tbl.SegmentMap E = none →
      tbl.GetSegment E =
        ({ tbl with SegmentMap := insertSeg tbl.SegmentMap (mkSegment tbl E) },
          mkSegment tbl E)) ∧
    (∀ seg, findLE tbl.SegmentMap E = some seg →
      seg.StartPosition + (seg.EntryCount : Int) < E →
      (∀ s ∈ tbl.SegmentMap, s.StartPosition ≠ E) →
      tbl.GetSegment E =
        ({ tbl with SegmentMap := insertSeg tbl.SegmentMap (mkSegment tbl E) },
          mkSegment tbl E)) := by
  refine ⟨?_, ?_, ?_⟩
  · intro seg hf hle
    simp only [IndexTable.GetSegment, hf]
    rw [if_neg (not_lt.mpr (findLE_some_le _ _ _ hf)), if_neg (not_lt.mpr hle)]
  · intro hf
    simp only [IndexTable.GetSegment, hf]
    apply addSegment_new
    intro s hs heq
    exact findLE_none_gt _ _ hf s hs (le_of_eq heq)
  · intro seg hf hgt hne
    simp only [IndexTable.GetSegment, hf]
    rw [if_neg (not_lt.mpr (findLE_some_le _ _ _ hf)), if_pos hgt]
    exact addSegment_new tbl E hne

/-- Witness for C8 on `vbrTable` (one segment covering 0‥2): edit unit 1
is inside the segment, so `GetSegment` returns it unchanged; edit unit 7
is beyond the free slot, so a fresh empty segment starting at 7 is
created and added. -/
theorem getSegmentLaw_witness :
    findLE vbrTable.SegmentMap 1 = some vbrSegment ∧
    vbrTable.GetSegment 1 = (vbrTable, vbrSegment) ∧
    vbrTable.GetSegment 7 =
      ({ vbrTable with
          SegmentMap := insertSeg vbrTable.SegmentMap (mkSegment vbrTable 7) },
        mkSegment vbrTable 7) :=
  ⟨by decide,
    (getSegmentLaw vbrTable 1).1 vbrSegment (by decide) (by decide),
    (getSegmentLaw vbrTable 7).2.2 vbrSegment (by decide) (by decide) (by decide)⟩

/-! ## Claim C1: CBR lookup -/

/-- C1: in a CBR table, looking up edit unit `E` for a sub-item that is
either the first one or has a slice-0 delta entry yields
`Location = E·EditUnitByteCount + ElementDelta` (delta 0 for sub-item 0)
with `Exact` set. -/
theorem cbrLookupLaw (tbl : IndexTable) (E : Int) (sub : Nat) (r : Bool)
    (hCBR : tbl.EditUnitByteCount ≠ 0)
    (hsub : sub = 0 ∨ (sub < tbl.BaseDeltaArray.length ∧
      (tbl.BaseDeltaArray.getD sub ⟨0, 0, 0⟩).Slice = 0)) :
    (tbl.Lookup E sub r).Location = E * (tbl.EditUnitByteCount : Int) +
      (if sub = 0 then 0
       else ((tbl.BaseDeltaArray.getD sub ⟨0, 0, 0⟩).ElementDelta : Int)) ∧
    (tbl.Lookup E sub r).Exact = true := by
  rw [IndexTable.Lookup, if_pos hCBR]
  by_cases h0 : sub = 0
  · simp [h0]
  · obtain h | ⟨hlt, hsl⟩ := hsub
    · exact absurd h h0
    · have h1 : ¬ (sub ≥ tbl.BaseDeltaArray.length) := by omega
      rw [List.getD_eq_getElem?_getD] at hsl
      simp [h0, h1, hsl]

/-- Witness for C1: `cbrTable` (1000 bytes/unit, second sub-item 40 bytes
in), edit unit 7, sub-item 1: location 7040, exact. -/
theorem cbrLookupLaw_witness :
    cbrTable.EditUnitByteCount ≠ 0 ∧
    (1 < cbrTable.BaseDeltaArray.length ∧
      (cbrTable.BaseDeltaArray.getD 1 ⟨0, 0, 0⟩).Slice = 0) ∧
    (cbrTable.Lookup 7 1 true).Location = 7040 ∧
    (cbrTable.Lookup 7 1 true).Exact = true := by
  have h := cbrLookupLaw cbrTable 7 1 true (by decide)
    (Or.inr ⟨by decide, by decide⟩)
  refine ⟨by decide, ⟨by decide, by decide⟩, ?_, h.2⟩
  rw [h.1]
  decide

/-! ## Claim C2: the VBR reorder law -/

/-- C2: in a VBR table, when edit unit `E` has an entry with non-zero
`TemporalOffset` Δ and the sub-item is subject to re-ordering
(no delta array, or `PosTableIndex < 0`), a re-ordering lookup of `E`
lands at the same location as a plain lookup of `E + Δ`. -/
theorem vbrReorderLaw (tbl : IndexTable) (E : Int) (sub : Nat)
    (seg : IndexSegment) (Δ : Int)
    (hVBR : tbl.EditUnitByteCount = 0)
    (hfind : findLE tbl.SegmentMap E = some seg)
    (hcnt : seg.EntryCount ≠ 0)
    (hin : E ≤ seg.StartPosition + (seg.EntryCount : Int) - 1)
    (hTO : getI8 seg.IndexEntryArray
      ((E - seg.StartPosition).toNat * tbl.IndexEntrySize) = Δ)
    (hΔ : Δ ≠ 0)
    (hre : reorderApplies seg sub) :
    (tbl.Lookup E sub true).Location = (tbl.Lookup (E + Δ) sub false).Location := by
  rw [IndexTable.Lookup, if_neg (by simp [hVBR]), hfind]
  simp only [if_neg hcnt, if_neg (not_lt.mpr hin)]
  rw [dif_pos ⟨by trivial, by rw [hTO]; exact hΔ, hre⟩]
  rw [hTO]

/-- Witness for C2 on `vbrTable`: entry 0 has temporal offset +2, so the
re-ordering lookup of 0 gives the location of edit unit 2. -/
theorem vbrReorderLaw_witness :
    vbrTable.EditUnitByteCount = 0 ∧
    findLE vbrTable.SegmentMap 0 = some vbrSegment ∧
    getI8 vbrSegment.IndexEntryArray 0 = 2 ∧
    reorderApplies vbrSegment 0 ∧
    (vbrTable.Lookup 0 0 true).Location = (vbrTable.Lookup 2 0 false).Location :=
  ⟨by decide, by decide, by decide, by decide,
    vbrReorderLaw vbrTable 0 0 vbrSegment 2 (by decide) (by decide) (by decide)
      (by decide) (by decide) (by decide) (by decide)⟩

/-! ## `writeBytes` frame lemmas and claim C10 -/

theorem length_putU64 (v : Nat) : (putU64 v).length = 8 := by
  simp [putU64, putBE]

theorem writeBytes_length (l v : List Nat) (off : Nat)
    (h : off + v.length ≤ l.length) :
    (writeBytes l off v).length = l.length := by
  simp only [writeBytes, List.length_append, List.length_take, List.length_drop]
  omega

theorem writeBytes_getD_lt (l v : List Nat) (off j : Nat) (h : j < off)
    (hb : off + v.length ≤ l.length) :
    (writeBytes l off v).getD j 0 = l.getD j 0 := by
  have htake : v.take (l.length - off) = v := List.take_of_length_le (by omega)
  have hto : (List.take off l).length = off := by
    simp only [List.length_take]; omega
  have hlen2 : (List.take off l ++ v).length = off + v.length := by
    simp only [List.length_append, hto]
  simp only [writeBytes, htake, List.getD_eq_getElem?_getD]
  rw [List.getElem?_append, if_pos (by rw [hlen2]; omega)]
  rw [List.getElem?_append, if_pos (by rw [hto]; omega)]
  rw [List.getElem?_take, if_pos h]

theorem writeBytes_getD_inside (l v : List Nat) (off k : Nat)
    (h : k < v.length) (hb : off + v.length ≤ l.length) :
    (writeBytes l off v).getD (off + k) 0 = v.getD k 0 := by
  have htake : v.take (l.length - off) = v := List.take_of_length_le (by omega)
  have hto : (List.take off l).length = off := by
    simp only [List.length_take]; omega
  have hlen2 : (List.take off l ++ v).length = off + v.length := by
    simp only [List.length_append, hto]
  simp only [writeBytes, htake, List.getD_eq_getElem?_getD]
  rw [List.getElem?_append, if_pos (by rw [hlen2]; omega)]
  rw [List.getElem?_append_right (by rw [hto]; omega), hto]
  have hidx : off + k - off = k := by omega
  rw [hidx]

theorem writeBytes_getD_ge (l v : List Nat) (off j : Nat)
    (h : off + v.length ≤ j) (hb : off + v.length ≤ l.length) :
    (writeBytes l off v).getD j 0 = l.getD j 0 := by
  have htake : v.take (l.length - off) = v := List.take_of_length_le (by omega)
  have hto : (List.take off l).length = off := by
    simp only [List.length_take]; omega
  have hlen2 : (List.take off l ++ v).length = off + v.length := by
    simp only [List.length_append, hto]
  simp only [writeBytes, htake, List.getD_eq_getElem?_getD]
  rw [List.getElem?_append_right (by rw [hlen2]; omega), hlen2]
  rw [List.getElem?_drop]
  have hidx : off + v.length + (j - (off + v.length)) = j := by omega
  rw [hidx]

/-- C10: `IndexTable::Update(E, SO)` is a complete no-op when `E` lies
before the first segment or beyond the located segment's last entry;
when `E` is in range it rewrites only the located segment, and
`IndexSegment::Update` changes nothing but the 8 stream-offset bytes of
the entry for `E` — start position, entry count, delta array, array
length, and every byte outside `[base+3, base+11)` are untouched, while
the 8 bytes inside become the big-endian image of `SO`. -/
theorem updateFrameLaw (tbl : IndexTable) (E : Int) (SO : Nat) :
    (findLE tbl.SegmentMap E = none → tbl.Update E SO = tbl) ∧
    (∀ seg, findLE tbl.SegmentMap E = some seg →
      seg.StartPosition + (seg.EntryCount : Int) - 1 < E →
      (∀ s ∈ tbl.SegmentMap, s.StartPosition = seg.StartPosition → s = seg) →
      tbl.Update E SO = tbl) ∧
    (∀ seg, findLE tbl.SegmentMap E = some seg →
      E ≤ seg.StartPosition + (seg.EntryCount : Int) - 1 →
      (tbl.Update E SO).SegmentMap = tbl.SegmentMap.map (fun s =>
        if s.StartPosition = seg.StartPosition
        then s.Update tbl.IndexEntrySize E SO else s) ∧
      (tbl.Update E SO).EditUnitByteCount = tbl.EditUnitByteCount ∧
      (tbl.Update E SO).IndexEntrySize = tbl.IndexEntrySize) ∧
    (∀ (ES : Nat) (seg : IndexSegment),
      seg.StartPosition ≤ E →
      E ≤ seg.StartPosition + (seg.EntryCount : Int) - 1 →
      11 ≤ ES →
      seg.IndexEntryArray.length = seg.EntryCount * ES →
      (seg.Update ES E SO).StartPosition = seg.StartPosition ∧
      (seg.Update ES E SO).EntryCount = seg.EntryCount ∧
      (seg.Update ES E SO).DeltaArray = seg.DeltaArray ∧
      (seg.Update ES E SO).IndexEntryArray.length =
        seg.IndexEntryArray.length ∧
      (∀ j, j < (E - seg.StartPosition).toNat * ES + 3 →
        (seg.Update ES E SO).IndexEntryArray.getD j 0 =
          seg.IndexEntryArray.getD j 0) ∧
      (∀ j, (E - seg.StartPosition).toNat * ES + 11 ≤ j →
        (seg.Update ES E SO).IndexEntryArray.getD j 0 =
          seg.IndexEntryArray.getD j 0) ∧
      (∀ k, k < 8 →
        (seg.Update ES E SO).IndexEntryArray.getD
            ((E - seg.StartPosition).toNat * ES + 3 + k) 0 =
          (putU64 SO).getD k 0)) := by
  refine ⟨?_, ?_, ?_, ?_⟩
  · intro hf
    simp only [IndexTable.Update, hf]
  · intro seg hf hgt huniq
    simp only [IndexTable.Update, hf]
    rw [if_neg (not_lt.mpr (findLE_some_le _ _ _ hf))]
    have hid : seg.Update tbl.IndexEntrySize E SO = seg := by
      rw [IndexSegment.Update,
        if_neg (not_lt.mpr (findLE_some_le _ _ _ hf)), if_pos hgt]
    have hmap : tbl.SegmentMap.map (fun s =>
        if s.StartPosition = seg.StartPosition
        then s.Update tbl.IndexEntrySize E SO else s) = tbl.SegmentMap := by
      have hcong : ∀ s ∈ tbl.SegmentMap,
          (if s.StartPosition = seg.StartPosition
           then s.Update tbl.IndexEntrySize E SO else s) = id s := by
        intro s hs
        by_cases hsp : s.StartPosition = seg.StartPosition
        · rw [if_pos hsp, huniq s hs hsp, hid]; rfl
        · rw [if_neg hsp]; rfl
      rw [List.map_congr_left hcong, List.map_id]
    rw [hmap]
  · intro seg hf hle
    simp only [IndexTable.Update, hf]
    rw [if_neg (not_lt.mpr (findLE_some_le _ _ _ hf))]
    exact ⟨rfl, rfl, rfl⟩
  · intro ES seg hlo hhi hES hlen
    have hcnt : 1 ≤ seg.EntryCount := by
      by_contra hc
      have : seg.EntryCount = 0 := by omega
      rw [this] at hhi
      omega
    have hidx : (E - seg.StartPosition).toNat ≤ seg.EntryCount - 1 := by omega
    have hbound : (E - seg.StartPosition).toNat * ES + 3 + 8 ≤
        seg.IndexEntryArray.length := by
      have h1 : (E - seg.StartPosition).toNat * ES ≤ (seg.EntryCount - 1) * ES :=
        Nat.mul_le_mul_right ES hidx
      have h2 : (seg.EntryCount - 1) * ES + ES = seg.EntryCount * ES := by
        have := Nat.succ_pred_eq_of_pos (show 0 < seg.EntryCount by omega)
        calc (seg.EntryCount - 1) * ES + ES = (seg.EntryCount - 1 + 1) * ES := by ring
        _ = seg.EntryCount * ES := by rw [Nat.sub_add_cancel hcnt]
      omega
    rw [IndexSegment.Update, if_neg (not_lt.mpr hlo), if_neg (not_lt.mpr hhi)]
    have hv : (putU64 SO).length = 8 := length_putU64 SO
    refine ⟨rfl, rfl, rfl, ?_, ?_, ?_, ?_⟩
    · exact writeBytes_length _ _ _ (by omega)
    · intro j hj
      exact writeBytes_getD_lt _ _ _ _ hj (by omega)
    · intro j hj
      exact writeBytes_getD_ge _ _ _ _ (by omega) (by omega)
    · intro k hk
      exact writeBytes_getD_inside _ _ _ _ (by omega) (by omega)

/-- Witness for C10 on `vbrTable`: updating edit unit 1 (base 11)
rewrites bytes 14‥21 of the entry array to the image of 999 and leaves
byte 5 (inside entry 0) untouched. -/
theorem updateFrameLaw_witness :
    findLE vbrTable.SegmentMap 1 = some vbrSegment ∧
    (vbrTable.Update 1 999).SegmentMap = vbrTable.SegmentMap.map (fun s =>
      if s.StartPosition = vbrSegment.StartPosition
      then s.Update vbrTable.IndexEntrySize 1 999 else s) ∧
    (vbrSegment.Update 11 1 999).EntryCount = 3 ∧
    (vbrSegment.Update 11 1 999).IndexEntryArray.getD 5 0 =
      vbrSegment.IndexEntryArray.getD 5 0 ∧
    (vbrSegment.Update 11 1 999).IndexEntryArray.getD 14 0 =
      (putU64 999).getD 0 0 := by
  have h3 := (updateFrameLaw vbrTable 1 999).2.2.1 vbrSegment (by decide) (by decide)
  have h4 := (updateFrameLaw vbrTable 1 999).2.2.2 11 vbrSegment (by decide)
    (by decide) (by decide) (by decide)
  refine ⟨by decide, h3.1, ?_, ?_, ?_⟩
  · rw [h4.2.1]; decide
  · exact h4.2.2.2.2.1 5 (by decide)
  · simpa [vbrSegment] using h4.2.2.2.2.2.2 0 (by decide)

/-! ## Claim C4: the `AddIndexEntry` segment-size limit -/

theorem flatten_map_length_const {β : Type} (l : List β) (f : β → List Nat)
    (c : Nat) (h : ∀ x, (f x).length = c) :
    ((l.map f).flatten).length = c * l.length := by
  induction l with
  | nil => simp
  | cons x rest ih => simp [ih, h]; ring

theorem entryBytes_length (TO KF : Int) (Fl SO : Nat) (slices : List Nat)
    (pos : List (Int × Int)) :
    (entryBytes TO KF Fl SO slices pos).length =
      11 + 4 * slices.length + 8 * pos.length := by
  simp only [entryBytes, List.length_append, List.length_cons, List.length_nil]
  rw [flatten_map_length_const slices putU32 4 (fun x => by simp [putU32, putBE]),
    flatten_map_length_const pos _ 8 (fun x => by simp [putI32, putBE])]
  simp [putU64, putBE]

/-- Counterexample to C4 as stated: with 19-byte entries (`NSL = 2`) and
3448 entries already present, appending one more would make the entry
array 65531 bytes — within 65535 — yet `AddIndexEntry` returns `false`
and leaves the segment unchanged, because its size check also counts the
8-byte array header. -/
theorem addIndexEntrySizeLimit_counterexample :
    fullSegment.EntryCount = 3448 ∧
    sliceTable.IndexEntrySize = 19 ∧
    ([0, 0] : List Nat).length = sliceTable.NSL ∧
    ([] : List (Int × Int)).length = sliceTable.NPE ∧
    (fullSegment.EntryCount + 1) * sliceTable.IndexEntrySize ≤ 65535 ∧
    fullSegment.AddIndexEntry sliceTable 0 0 0 0 [0, 0] [] =
      (fullSegment, false) := by
  refine ⟨rfl, rfl, rfl, rfl, by norm_num [fullSegment, sliceTable], ?_⟩
  rw [IndexSegment.AddIndexEntry]
  rw [if_neg (by decide), if_neg (by decide)]
  rw [if_pos (by norm_num [fullSegment, sliceTable])]

/-- C4 (amended): `AddIndexEntry` refuses — returning `false` with the
segment unchanged — exactly when the new entry array *plus its 8-byte
count/size header* would exceed 65535 bytes, i.e. when
`(EntryCount+1)·IndexEntrySize + 8 > 65535`; otherwise (matching NSL and
NPE) it appends the serialised entry, bumps `EntryCount` and returns
`true`. -/
theorem addIndexEntrySizeLimit (tbl : IndexTable) (seg : IndexSegment)
    (TO KF : Int) (Fl SO : Nat) (slices : List Nat) (pos : List (Int × Int))
    (hs : slices.length = tbl.NSL) (hp : pos.length = tbl.NPE)
    (hES : tbl.IndexEntrySize = 11 + 4 * tbl.NSL + 8 * tbl.NPE) :
    ((seg.EntryCount + 1) * tbl.IndexEntrySize + 8 > 65535 →
      seg.AddIndexEntry tbl TO KF Fl SO slices pos = (seg, false)) ∧
    ((seg.EntryCount + 1) * tbl.IndexEntrySize + 8 ≤ 65535 →
      (seg.AddIndexEntry tbl TO KF Fl SO slices pos).2 = true ∧
      (seg.AddIndexEntry tbl TO KF Fl SO slices pos).1.EntryCount =
        seg.EntryCount + 1 ∧
      (seg.AddIndexEntry tbl TO KF Fl SO slices pos).1.StartPosition =
        seg.StartPosition ∧
      (seg.AddIndexEntry tbl TO KF Fl SO slices pos).1.DeltaArray =
        seg.DeltaArray ∧
      (seg.AddIndexEntry tbl TO KF Fl SO slices pos).1.IndexEntryArray =
        seg.IndexEntryArray ++ entryBytes TO KF Fl SO slices pos) := by
  have hlen : (entryBytes TO KF Fl SO slices pos).length = tbl.IndexEntrySize := by
    rw [entryBytes_length, hs, hp, hES]
  rw [IndexSegment.AddIndexEntry]
  rw [if_neg (by simp [hs]), if_neg (by simp [hp])]
  constructor
  · intro hbig
    rw [if_pos (by omega)]
  · intro hsm
    rw [if_neg (by omega)]
    refine ⟨rfl, rfl, rfl, rfl, ?_⟩
    simp only
    rw [List.take_of_length_le (le_of_eq hlen), hlen, Nat.sub_self,
      List.replicate_zero, List.append_nil]

/-- Witness for the amended C4: appending a 0-slice entry to the 3-entry
`vbrSegment` (11-byte entries) succeeds, bumping the count to 4 and
appending the serialised bytes. -/
theorem addIndexEntrySizeLimit_witness :
    ((vbrSegment.EntryCount + 1) * vbrTable.IndexEntrySize + 8 ≤ 65535) ∧
    (vbrSegment.AddIndexEntry vbrTable 1 (-1) 128 400 [] []).2 = true ∧
    (vbrSegment.AddIndexEntry vbrTable 1 (-1) 128 400 [] []).1.EntryCount = 4 ∧
    (vbrSegment.AddIndexEntry vbrTable 1 (-1) 128 400 [] []).1.IndexEntryArray =
      vbrSegment.IndexEntryArray ++ entryBytes 1 (-1) 128 400 [] [] := by
  have h := (addIndexEntrySizeLimit vbrTable vbrSegment 1 (-1) 128 400 [] []
    (by decide) (by decide) (by decide)).2 (by decide)
  exact ⟨by decide, h.1, by rw [h.2.1]; decide, h.2.2.2.2⟩

/-! ## `locateEntry` lemmas -/

theorem locateEntry_found (m : IndexManager) (E : Int) (e : IndexData)
    (hprov : m.ProvisionalEntry = none)
    (hfound : mapFind m.ManagedData E = some e) :
    locateEntry m E = (m, true) := by
  simp only [locateEntry, hprov, locateEntry.findOrCreateEntry, hfound]

theorem locateEntry_create (m : IndexManager) (E : Int)
    (hprov : m.ProvisionalEntry = none)
    (habs : mapFind m.ManagedData E = none)
    (hu1 : mapFind m.UnsatisfiedTemporalOffsets E = none)
    (hu2 : mapFind m.UnsatisfiedTemporalDiffs E = none) :
    locateEntry m E =
      ({ m with ManagedData := mapInsert m.ManagedData E (freshEntry m.StreamCount),
                LastNewEditUnit := E }, true) := by
  simp only [locateEntry, hprov, locateEntry.findOrCreateEntry, habs, hu1, hu2]

theorem locateEntry_create_resolve (m : IndexManager) (E : Int) (toff tdiff : Int)
    (hprov : m.ProvisionalEntry = none)
    (habs : mapFind m.ManagedData E = none)
    (hu1 : mapFind m.UnsatisfiedTemporalOffsets E = some toff)
    (hu2 : mapFind m.UnsatisfiedTemporalDiffs E = some tdiff) :
    locateEntry m E =
      ({ m with
          ManagedData := mapInsert m.ManagedData E
            ({ freshEntry m.StreamCount with
                TemporalOffset := toff, TemporalDiff := tdiff }),
          UnsatisfiedTemporalOffsets := mapErase m.UnsatisfiedTemporalOffsets E,
          UnsatisfiedTemporalDiffs := mapErase m.UnsatisfiedTemporalDiffs E,
          LastNewEditUnit := E }, true) := by
  simp only [locateEntry, hprov, locateEntry.findOrCreateEntry, habs, hu1, hu2]

/-! ## Claim C5: the sub-range offset correction -/

/-- Counterexample to C5 as stated: `rangedManager` has
`SubRangeOffset = 5` and one managed entry at (sub-range-relative)
position 2.  `SetOffset(0, 7, 100)` does **not** subtract the sub-range
offset: it creates a new entry at position 7 (with the offset recorded
there) and leaves the entry at position `7 − 5 = 2` untouched — the
source documents that `SetOffset` already receives sub-range-relative
positions. -/
theorem subRangeOffsetLaw_counterexample :
    rangedManager.SubRangeOffset = 5 ∧
    mapFind (rangedManager.SetOffset 0 7 100 0 (-1)).ManagedData 7 =
      some { freshEntry 1 with Status := 1, StreamOffset := [100] } ∧
    mapFind (rangedManager.SetOffset 0 7 100 0 (-1)).ManagedData 2 =
      some (freshEntry 1) := by
  decide

/-- C5 (amended): the manager subtracts `SubRangeOffset` from the
incoming edit-unit position in `AddEditUnit` (and thus `OfferEditUnit`),
`SetTemporalOffset`, `SetKeyOffset` and `SetFlags`; `SetOffset` (and thus
`OfferOffset`) applies **no** correction because its edit unit is already
sub-range-relative. -/
theorem subRangeOffsetLaw (m : IndexManager) (E : Int) (e : IndexData)
    (s : Nat) (off : Nat) (k v toff : Int)
    (hcbr : m.DataIsCBR = false)
    (hprov : m.ProvisionalEntry = none)
    (hfound : mapFind m.ManagedData (E - m.SubRangeOffset) = some e)
    (habsE : mapFind m.ManagedData E = none)
    (hu1 : mapFind m.UnsatisfiedTemporalOffsets E = none)
    (hu2 : mapFind m.UnsatisfiedTemporalDiffs E = none)
    (hsro : m.SubRangeOffset ≠ 0)
    (hk : k ≠ 0)
    (htf : toff ≠ 0)
    (habs2 : mapFind m.ManagedData (E - m.SubRangeOffset + toff) = none) :
    mapFind ((m.AddEditUnit m.MasterStream E k (-1)).ManagedData)
      (E - m.SubRangeOffset) = some { e with KeyOffset := k } ∧
    mapFind ((m.SetOffset s E off 0 (-1)).ManagedData) E =
      some { Status := 1, Flags := 0, KeyOffset := 0, TemporalOffset := 0,
             TemporalDiff := 0,
             StreamOffset := (List.replicate m.StreamCount 0).set s off } ∧
    mapFind ((m.SetOffset s E off 0 (-1)).ManagedData) (E - m.SubRangeOffset) =
      some e ∧
    mapFind ((m.SetTemporalOffset E toff).ManagedData) (E - m.SubRangeOffset) =
      some { e with Status := e.Status ||| 2, TemporalOffset := toff } ∧
    mapFind ((m.SetKeyOffset E v).ManagedData) (E - m.SubRangeOffset) =
      some { e with KeyOffset := v } ∧
    mapFind ((m.SetFlags E v).ManagedData) (E - m.SubRangeOffset) =
      some { e with Flags := v } ∧
    m.OfferEditUnit s E k v = (m.AddEditUnit s E k v, true) ∧
    m.OfferOffset s E off k v = (m.SetOffset s E off k v, true) := by
  have hprovb : m.ProvisionalEntry.isSome = false := by rw [hprov]; rfl
  refine ⟨?_, ?_, ?_, ?_, ?_, ?_, rfl, rfl⟩
  · rw [IndexManager.AddEditUnit, if_neg (by simp [hcbr])]
    simp only [locateEntry_found { m with FormatFixed := true } _ e hprov hfound]
    simp [mapFind_mapUpdate_self, hfound, hk]
  · rw [IndexManager.SetOffset, if_neg (by simp [hcbr])]
    simp only [locateEntry_create { m with FormatFixed := true } _ hprov habsE
      hu1 hu2]
    have hins := mapFind_mapInsert_self m.ManagedData E
      (freshEntry m.StreamCount) habsE
    simp only [freshEntry] at hins
    by_cases hss : s = m.MasterStream <;>
      simp [mapFind_mapUpdate_self, hss, freshEntry] <;>
      exact ⟨_, hins, by simp⟩
  · rw [IndexManager.SetOffset, if_neg (by simp [hcbr])]
    simp only [locateEntry_create { m with FormatFixed := true } _ hprov habsE
      hu1 hu2]
    have hne : E - m.SubRangeOffset ≠ E := by omega
    simp [mapFind_mapUpdate_ne _ _ _ _ hne, mapFind_mapInsert_ne _ _ _ _ hne,
      hfound]
  · have hstep : mapFind (mapUpdate m.ManagedData (E - m.SubRangeOffset)
        (fun e => { e with Status := e.Status ||| 2, TemporalOffset := toff }))
        (E - m.SubRangeOffset + toff) = none := by
      rw [mapFind_mapUpdate_ne _ _ _ _ (by omega)]
      exact habs2
    rw [IndexManager.SetTemporalOffset]
    simp only [hcbr, Bool.false_eq_true, if_false, hprovb, Bool.false_and,
      if_false, hfound, hstep]
    rw [mapFind_mapUpdate_self, hfound]
    rfl
  · rw [IndexManager.SetKeyOffset]
    simp only [hcbr, Bool.false_eq_true, if_false, hprovb, Bool.false_and,
      if_false, hfound]
    rw [mapFind_mapUpdate_self, hfound]
    rfl
  · rw [IndexManager.SetFlags]
    simp only [hcbr, Bool.false_eq_true, if_false, hprovb, Bool.false_and,
      if_false, hfound]
    rw [mapFind_mapUpdate_self, hfound]
    rfl

/-- Witness for the amended C5 on `rangedManager` (`SubRangeOffset = 5`,
entry at sub-range-relative position 2): `AddEditUnit(·, 7, …)` and
`SetKeyOffset(7, …)` land on entry 2, while `SetOffset(·, 7, …)` creates
entry 7. -/
theorem subRangeOffsetLaw_witness :
    mapFind ((rangedManager.AddEditUnit 0 7 9 (-1)).ManagedData) 2 =
      some { freshEntry 1 with KeyOffset := 9 } ∧
    mapFind ((rangedManager.SetOffset 0 7 100 0 (-1)).ManagedData) 7 =
      some { Status := 1, Flags := 0, KeyOffset := 0, TemporalOffset := 0,
             TemporalDiff := 0, StreamOffset := [100] } ∧
    mapFind ((rangedManager.SetKeyOffset 7 3).ManagedData) 2 =
      some { freshEntry 1 with KeyOffset := 3 } := by
  have h := subRangeOffsetLaw rangedManager 7 (freshEntry 1) 0 100 9 3 2
    (by decide) (by decide) (by decide) (by decide) (by decide) (by decide)
    (by decide) (by decide) (by decide) (by decide)
  exact ⟨h.1, h.2.1, h.2.2.2.2.1⟩

/-! ## Claim C6: unsatisfied temporal offsets -/

/-- C6: a `SetTemporalOffset` call for an edit unit that is neither
managed yet nor the provisional entry parks the offset (and the reverse
`TemporalDiff`, both keyed under the sub-range-corrected edit unit) in
the unsatisfied side maps without touching the managed data; when that
edit unit is later created by `AddEditUnit`, the new entry receives the
parked `TemporalOffset` and `TemporalDiff` and both side-map entries are
erased. -/
theorem unsatisfiedTemporalOffsetLaw (m : IndexManager) (E off : Int) (s : Nat)
    (hcbr : m.DataIsCBR = false)
    (hprov : m.ProvisionalEntry = none)
    (habs : mapFind m.ManagedData (E - m.SubRangeOffset) = none)
    (habs2 : mapFind m.ManagedData (E - m.SubRangeOffset + off) = none)
    (hu1 : mapFind m.UnsatisfiedTemporalOffsets (E - m.SubRangeOffset) = none)
    (hu2 : mapFind m.UnsatisfiedTemporalDiffs (E - m.SubRangeOffset) = none) :
    mapFind ((m.SetTemporalOffset E off).UnsatisfiedTemporalOffsets)
      (E - m.SubRangeOffset) = some off ∧
    mapFind ((m.SetTemporalOffset E off).UnsatisfiedTemporalDiffs)
      (E - m.SubRangeOffset) = some (-off) ∧
    (m.SetTemporalOffset E off).ManagedData = m.ManagedData ∧
    mapFind (((m.SetTemporalOffset E off).AddEditUnit s E 0 (-1)).ManagedData)
      (E - m.SubRangeOffset) =
      some ({ freshEntry m.StreamCount with
              TemporalOffset := off, TemporalDiff := -off }) ∧
    mapFind (((m.SetTemporalOffset E off).AddEditUnit s E 0
        (-1)).UnsatisfiedTemporalOffsets) (E - m.SubRangeOffset) = none ∧
    mapFind (((m.SetTemporalOffset E off).AddEditUnit s E 0
        (-1)).UnsatisfiedTemporalDiffs) (E - m.SubRangeOffset) = none := by
  have hprovb : m.ProvisionalEntry.isSome = false := by rw [hprov]; rfl
  have hpark : m.SetTemporalOffset E off =
      { m with
          UnsatisfiedTemporalOffsets :=
            mapInsert m.UnsatisfiedTemporalOffsets (E - m.SubRangeOffset) off,
          UnsatisfiedTemporalDiffs :=
            mapInsert m.UnsatisfiedTemporalDiffs (E - m.SubRangeOffset) (-off) } := by
    rw [IndexManager.SetTemporalOffset]
    simp only [hcbr, Bool.false_eq_true, if_false, hprovb, Bool.false_and,
      habs, habs2]
  have hu1i := mapFind_mapInsert_self m.UnsatisfiedTemporalOffsets
    (E - m.SubRangeOffset) off hu1
  have hu2i := mapFind_mapInsert_self m.UnsatisfiedTemporalDiffs
    (E - m.SubRangeOffset) (-off) hu2
  refine ⟨by rw [hpark]; exact hu1i, by rw [hpark]; exact hu2i,
    by rw [hpark], ?_, ?_, ?_⟩ <;>
  · rw [hpark, IndexManager.AddEditUnit, if_neg (by simp [hcbr])]
    simp only [locateEntry_create_resolve
      { m with
          UnsatisfiedTemporalOffsets :=
            mapInsert m.UnsatisfiedTemporalOffsets (E - m.SubRangeOffset) off,
          UnsatisfiedTemporalDiffs :=
            mapInsert m.UnsatisfiedTemporalDiffs (E - m.SubRangeOffset) (-off),
          FormatFixed := true }
      (E - m.SubRangeOffset) off (-off) hprov habs hu1i hu2i]
    have hinsr := mapFind_mapInsert_self m.ManagedData (E - m.SubRangeOffset)
      ({ freshEntry m.StreamCount with
          TemporalOffset := off, TemporalDiff := -off }) habs
    by_cases hss : s = m.MasterStream <;>
      simp [mapFind_mapUpdate_self, mapFind_mapErase_self, hss, hinsr]

/-- Witness for C6 on `emptyManager`: `SetTemporalOffset(5, 2)` parks
offset 2 and diff −2 under edit unit 5; a later `AddEditUnit(0, 5)`
creates the entry with the parked values and clears the side maps. -/
theorem unsatisfiedTemporalOffsetLaw_witness :
    mapFind ((emptyManager.SetTemporalOffset 5 2).UnsatisfiedTemporalOffsets) 5 =
      some 2 ∧
    mapFind ((emptyManager.SetTemporalOffset 5 2).UnsatisfiedTemporalDiffs) 5 =
      some (-2) ∧
    mapFind (((emptyManager.SetTemporalOffset 5 2).AddEditUnit 0 5 0
        (-1)).ManagedData) 5 =
      some ({ freshEntry 1 with TemporalOffset := 2, TemporalDiff := -2 }) ∧
    mapFind (((emptyManager.SetTemporalOffset 5 2).AddEditUnit 0 5 0
        (-1)).UnsatisfiedTemporalOffsets) 5 = none := by
  have h := unsatisfiedTemporalOffsetLaw emptyManager 5 2 0
    (by decide) (by decide) (by decide) (by decide) (by decide) (by decide)
  exact ⟨h.1, h.2.1, h.2.2.2.1, h.2.2.2.2.1⟩

end MxfLib
